import Mathlib

/-!
Verification development for pyrvt motions.py (random vibration theory motions).

The Python source is shallowly embedded over an arbitrary linearly ordered
field.  Transcendental operations that the source takes from numpy/scipy
(square root, power, exp, log) and the external peak-calculator capability
are passed in as explicit function parameters, so every definition below is
executable; the real-number instantiations appear only in theorem statements.
Array mutation is modelled by pure list updates, and the uninitialized
np.empty_like allocations are modelled by an explicit junk list whose
contents are arbitrary.
-/

set_option maxHeartbeats 1000000

namespace Pyrvt

/-- Embedding of compute_stress_drop (motions.py lines 13-27):
10 ** (3.45 - 0.2 * max(magnitude, 5.)), with the float power operator
passed in as powF. -/
def computeStressDrop {α : Type} [LinearOrderedField α]
    (powF : α → α → α) (magnitude : α) : α :=
  powF 10 (3.45 - 0.2 * max magnitude 5)

/-- Loop of compute_geometric_spreading (motions.py lines 49-61).  The state
carried across iterations is the pair (initial, gs); each (slope, limit)
segment caps the distance at its limit (a limit of None, and following
Python truthiness also a limit of 0, leaves the distance uncapped),
multiplies gs by (initial / capped) ** slope, and the loop continues to the
next segment only when the segment actually capped the distance. -/
def cgsLoop {α : Type} [LinearOrderedField α]
    (powF : α → α → α) (dist : α) : α → α → List (α × Option α) → α
  | _, gs, [] => gs
  | initial, gs, (slope, limit) :: rest =>
    let capped : α :=
      match limit with
      | none => dist
      | some l => if l = 0 then dist else min dist l
    let gs' := gs * powF (initial / capped) slope
    if capped < dist then cgsLoop powF dist capped gs' rest else gs'

/-- Embedding of compute_geometric_spreading (motions.py lines 30-61):
initial = 1, gs = 1, then the segment loop.  The source contains no raise
statement: the function is total and returns gs on every input. -/
def computeGeometricSpreading {α : Type} [LinearOrderedField α]
    (powF : α → α → α) (dist : α) (coefs : List (α × Option α)) : α :=
  cgsLoop powF dist 1 1 coefs

/-- External peak-calculator capability (spec section 6); only the
compute_duration_rms operation is needed by the embedded code. -/
structure PeakCalc (α : Type) where
  computeDurationRms : α → α → String → α

/-- Modelled from the spec: RvtMotion._compute_duration_rms is called at
motions.py line 296 but is not defined anywhere in the available source.
Per spec sections 6 and 9 the real contract lives on the peak-calculator
capability: the call delegates to compute_duration_rms(osc_freq, damping,
method) on the injected peak calculator. -/
def computeDurationRmsCall {α : Type} (pc : PeakCalc α)
    (oscFreq damping : α) (method : String) : α :=
  pc.computeDurationRms oscFreq damping method

/-- Peak factor constant of the Vanmarcke seed (motions.py line 285). -/
def peakFactor {α : Type} [LinearOrderedField α] : α := 2.5

/-- SDOF factor of the Vanmarcke seed (motions.py line 290):
pi / (4 * damping) - 1, with pi passed in as piV. -/
def sdofFactor {α : Type} [LinearOrderedField α] (piV damping : α) : α :=
  piV / (4 * damping) - 1

/-- State threaded through the Vanmarcke seed loop (motions.py lines
285-313): the fourier_amp array (initially the junk contents of
np.empty_like), the fa_sqr_prev variable (initialized to 0 at line 287 and
never reassigned anywhere in the loop), the running total, and a trace of
the argument triples passed to the duration-rms capability call. -/
structure SeedState (α : Type) where
  fourierAmp : List α
  faSqrPrev : α
  total : α
  drmsCalls : List (α × α × String)
deriving DecidableEq

/-- Python read fourier_amp[i-1] for a loop index i : for i = 0 the Python
index is -1, which wraps around to the last element of the array; for
i >= 1 it is the ordinary element i-1.  The d argument is the out-of-range
default of the list reads. -/
def pyPrev {α : Type} (l : List α) (i : ℕ) (d : α) : α :=
  if i = 0 then l.getD (l.length - 1) d else l.getD (i - 1) d

/-- Squared Fourier amplitude increment of the Vanmarcke seed (motions.py
lines 296-301), before the negativity branch:
((duration_rms * resp ** 2) / (2 * peak_factor ** 2) - total)
/ (osc_freq * sdof_factor). -/
def faSqrRaw {α : Type} [LinearOrderedField α] (pc : PeakCalc α)
    (damping sdofF : α) (oscFreq oscResp : List α)
    (s : SeedState α) (i : ℕ) : α :=
  let f := oscFreq.getD i 0
  let resp := oscResp.getD i 0
  let durationRms := computeDurationRmsCall pc f damping "boore_joyner"
  ((durationRms * resp ^ 2) / (2 * peakFactor ^ 2) - s.total) / (f * sdofF)

/-- One iteration of the Vanmarcke seed loop (motions.py lines 294-313).
If fa_sqr_cur < 0 the amplitude is flattened to the Python read
fourier_amp[i-1] and fa_sqr_cur is recomputed as its square, otherwise the
amplitude is sqrt(fa_sqr_cur); afterwards the running total is updated,
using the recomputed fa_sqr_cur and the (never reassigned) fa_sqr_prev. -/
def vanmarckeStep {α : Type} [LinearOrderedField α] (pc : PeakCalc α)
    (sqrtF : α → α) (damping sdofF : α) (oscFreq oscResp : List α)
    (s : SeedState α) (i : ℕ) : SeedState α :=
  let f := oscFreq.getD i 0
  let faSqr := faSqrRaw pc damping sdofF oscFreq oscResp s i
  let ampFa : List α × α :=
    if faSqr < 0 then
      let v := pyPrev s.fourierAmp i 0
      (s.fourierAmp.set i v, v ^ 2)
    else
      (s.fourierAmp.set i (sqrtF faSqr), faSqr)
  let total :=
    if i = 0 then ampFa.2 * f / 2
    else s.total + (ampFa.2 - s.faSqrPrev) / 2 * (f - oscFreq.getD (i - 1) 0)
  ⟨ampFa.1, s.faSqrPrev, total,
    s.drmsCalls ++ [(f, damping, "boore_joyner")]⟩

/-- The full Vanmarcke Step-1 seed (motions.py lines 285-313): fold the
step over the target indices in ascending order, starting from fa_sqr_prev
= 0, total = 0 and an uninitialized (junk) amplitude array. -/
def vanmarckeSeed {α : Type} [LinearOrderedField α] (pc : PeakCalc α)
    (sqrtF : α → α) (piV damping : α) (oscFreq oscResp : List α)
    (junk : List α) : SeedState α :=
  (List.range oscFreq.length).foldl
    (vanmarckeStep pc sqrtF damping (sdofFactor piV damping) oscFreq oscResp)
    ⟨junk, 0, 0, []⟩

/-- Modelled from the spec: the total update as the specification words it,
with fa_sqr_prev holding the squared-amplitude value computed at the
previous iteration.  This definition exists only to be compared with the
source-derived vanmarckeStep, which never reassigns fa_sqr_prev. -/
def vanmarckeStepSpec {α : Type} [LinearOrderedField α] (pc : PeakCalc α)
    (sqrtF : α → α) (damping sdofF : α) (oscFreq oscResp : List α)
    (s : SeedState α) (i : ℕ) : SeedState α :=
  let f := oscFreq.getD i 0
  let faSqr := faSqrRaw pc damping sdofF oscFreq oscResp s i
  let ampFa : List α × α :=
    if faSqr < 0 then
      let v := pyPrev s.fourierAmp i 0
      (s.fourierAmp.set i v, v ^ 2)
    else
      (s.fourierAmp.set i (sqrtF faSqr), faSqr)
  let total :=
    if i = 0 then ampFa.2 * f / 2
    else s.total + (ampFa.2 - s.faSqrPrev) / 2 * (f - oscFreq.getD (i - 1) 0)
  ⟨ampFa.1, ampFa.2, total,
    s.drmsCalls ++ [(f, damping, "boore_joyner")]⟩

/-- Spec-worded variant of the seed, built from vanmarckeStepSpec. -/
def vanmarckeSeedSpec {α : Type} [LinearOrderedField α] (pc : PeakCalc α)
    (sqrtF : α → α) (piV damping : α) (oscFreq oscResp : List α)
    (junk : List α) : SeedState α :=
  (List.range oscFreq.length).foldl
    (vanmarckeStepSpec pc sqrtF damping (sdofFactor piV damping) oscFreq
      oscResp)
    ⟨junk, 0, 0, []⟩

/-- Constant duration-rms peak calculator used for concrete evaluations. -/
def constPC : PeakCalc ℚ := ⟨fun _ _ _ => 25 / 2⟩

/-- Second peak calculator agreeing with constPC on method boore_joyner. -/
def constPC2 : PeakCalc ℚ :=
  ⟨fun _ _ method => if method = "boore_joyner" then 25 / 2 else 0⟩

/-- Single extrapolated value of the _extrap helper (motions.py lines
341-353): log-linear extrapolation through the two anchor points
(x0f, y0a), (x1f, y1a), evaluated at freqI.  A max_slope of None (and,
following Python truthiness, also of 0) leaves the slope uncapped. -/
def extrapPoint {α : Type} [LinearOrderedField α] [DecidableEq α]
    (expF logF : α → α) (freqI x0f x1f y0a y1a : α)
    (maxSlope : Option α) : α :=
  let xi := logF freqI
  let x0 := logF x0f
  let x1 := logF x1f
  let y0 := logF y0a
  let y1 := logF y1a
  let slope := (y1 - y0) / (x1 - x0)
  let slope' :=
    match maxSlope with
    | none => slope
    | some m => if m = 0 then slope else min slope m
  expF (slope' * (xi - x0) + y0)

/-- Numpy slice assignment a[lo:hi] = values, modelled functionally: entry
i of the result is f i inside [lo, hi) and the old entry elsewhere. -/
def writeRange {α : Type} [LinearOrderedField α]
    (l : List α) (lo hi : ℕ) (f : ℕ → α) : List α :=
  (List.range l.length).map fun i => if lo ≤ i ∧ i < hi then f i else l.getD i 0

/-- Embedding of the extrapolate closure (motions.py lines 338-364): the
range [0, first) is rewritten from the anchor points at indices first and
first+1, then the range [last, end) is rewritten from the anchor points at
indices last-2 and last-1 of the updated array; both calls pass None for
max_slope. -/
def extrapolate {α : Type} [LinearOrderedField α] [DecidableEq α]
    (expF logF : α → α) (freq famp : List α) (first last : ℕ) : List α :=
  let lowF := fun i =>
    extrapPoint expF logF (freq.getD i 0) (freq.getD first 0)
      (freq.getD (first + 1) 0) (famp.getD first 0) (famp.getD (first + 1) 0)
      none
  let a1 := writeRange famp 0 first lowF
  let highF := fun i =>
    extrapPoint expF logF (freq.getD i 0) (freq.getD (last - 2) 0)
      (freq.getD (last - 1) 0) (a1.getD (last - 2) 0) (a1.getD (last - 1) 0)
      none
  writeRange a1 last a1.length highF

/-- Error raised by SourceTheoryMotion for a region outside wus and ceus
(motions.py line 190, a NotImplementedError; the specification names it
UnsupportedRegionError in its error taxonomy). -/
inductive STError
  | unsupportedRegion
deriving DecidableEq

/-- State of a constructed SourceTheoryMotion (motions.py lines 111-200).
The site_amp member of the source is an external scipy interp1d object; the
embedding records the two anchor tables it is built from (the source takes
the log of the frequency anchors before interpolating). -/
structure STM (α : Type) where
  magnitude : α
  distance : α
  region : String
  shearVelocity : α
  pathAttenCoeff : α
  pathAttenPower : α
  density : α
  siteAtten : α
  geomSpreading : List (α × Option α)
  stressDrop : α
  siteAmpFreqAnchors : List α
  siteAmpAnchors : List α
  depth : α
  hypoDistance : α
  seismicMoment : α
  cornerFreq : α
deriving DecidableEq

/-- Python truthiness applied to the stress_drop argument (motions.py lines
152-155 and 175-178): None and 0 both fall back to the regional default. -/
def resolveStressDrop {α : Type} [LinearOrderedField α] [DecidableEq α]
    (stressDrop : Option α) (dflt : α) : α :=
  match stressDrop with
  | none => dflt
  | some s => if s = 0 then dflt else s

/-- Derived constants shared by both regional branches (motions.py lines
192-200): depth to rupture 8 km, hypocentral distance, seismic moment and
corner frequency, with sqrt and the float power operator passed in. -/
def mkSTM {α : Type} [LinearOrderedField α] (sqrtF : α → α)
    (powF : α → α → α) (magnitude distance : α) (r : String)
    (sv pac pap density siteAtten : α) (gs : List (α × Option α)) (sd : α)
    (ampFreqs ampVals : List α) : STM α :=
  let depth : α := 8
  let hypo := sqrtF (distance ^ 2 + depth ^ 2)
  let moment := powF 10 (1.5 * (magnitude + 10.7))
  let cf := 4.9e6 * sv * powF (sd / moment) (1 / 3)
  { magnitude := magnitude, distance := distance, region := r,
    shearVelocity := sv, pathAttenCoeff := pac, pathAttenPower := pap,
    density := density, siteAtten := siteAtten, geomSpreading := gs,
    stressDrop := sd, siteAmpFreqAnchors := ampFreqs,
    siteAmpAnchors := ampVals, depth := depth, hypoDistance := hypo,
    seismicMoment := moment, cornerFreq := cf }

/-- WUS crustal amplification anchor frequencies (motions.py lines 160-162). -/
def wusSiteAmpFreqs {α : Type} [LinearOrderedField α] : List α :=
  [0.01, 0.09, 0.16, 0.51, 0.84, 1.25, 2.26, 3.17, 6.05, 16.60, 61.20,
   100.00]

/-- WUS crustal amplification anchor values (motions.py lines 163-164). -/
def wusSiteAmpValues {α : Type} [LinearOrderedField α] : List α :=
  [1.00, 1.10, 1.18, 1.42, 1.58, 1.74, 2.06, 2.25, 2.58, 3.13, 4.00, 4.40]

/-- CEUS crustal amplification anchor frequencies (motions.py lines 183-185). -/
def ceusSiteAmpFreqs {α : Type} [LinearOrderedField α] : List α :=
  [0.01, 0.10, 0.20, 0.30, 0.50, 0.90, 1.25, 1.80, 3.00, 5.30, 8.00, 14.00,
   30.00, 60.00, 100.00]

/-- CEUS crustal amplification anchor values (motions.py lines 186-187). -/
def ceusSiteAmpValues {α : Type} [LinearOrderedField α] : List α :=
  [1.00, 1.02, 1.03, 1.05, 1.07, 1.09, 1.11, 1.12, 1.13, 1.14, 1.15, 1.15,
   1.15, 1.15, 1.15]

/-- Python str.lower applied to the region argument, embedded structurally
over the character list (String.toLower in core is defined by well-founded
recursion on byte positions, which blocks definitional evaluation; on the
ASCII region names used here the two agree character for character). -/
def strLower (s : String) : String := ⟨s.data.map Char.toLower⟩

/-- Embedding of SourceTheoryMotion.__init__ (motions.py lines 113-200):
the region string is lowercased, the matching hardcoded regional constant
table is selected, and any other region raises (NotImplementedError in the
source, UnsupportedRegionError in the specification taxonomy). -/
def initSTM {α : Type} [LinearOrderedField α] [DecidableEq α]
    (sqrtF : α → α) (powF : α → α → α) (magnitude distance : α)
    (region : String) (stressDrop : Option α) : Except STError (STM α) :=
  let r := strLower region
  if r = "wus" then
    .ok (mkSTM sqrtF powF magnitude distance r 3.5 180 0.45 2.8 0.04
      [((-1 : α), some 40), (-0.5, none)] (resolveStressDrop stressDrop 100)
      wusSiteAmpFreqs wusSiteAmpValues)
  else if r = "ceus" then
    .ok (mkSTM sqrtF powF magnitude distance r 3.6 680 0.36 2.8 0.006
      [((-1 : α), some 70), (0, some 130), (-0.5, none)]
      (resolveStressDrop stressDrop 150) ceusSiteAmpFreqs ceusSiteAmpValues)
  else
    .error .unsupportedRegion

/-- CEUS path duration (motions.py lines 210-222): starting from 0, each of
the three distance segments adds its rate times the capped distance in
excess of its breakpoint, guarded by the breakpoint test. -/
def ceusPathDuration {α : Type} [LinearOrderedField α] (r : α) : α :=
  let d0 : α := 0
  let d1 := if 10 < r then d0 + 0.16 * (min r 70 - 10) else d0
  let d2 := if 70 < r then d1 + (-0.03) * (min r 130 - 70) else d1
  if 130 < r then d2 + 0.04 * (r - 130) else d2

/-- Embedding of SourceTheoryMotion.compute_duration (motions.py lines
202-226): source duration 1/corner_frequency plus the region-specific path
duration; an unsupported region raises. -/
def STM.computeDuration {α : Type} [LinearOrderedField α]
    (stm : STM α) : Except STError α :=
  let durationSource := 1 / stm.cornerFreq
  if stm.region = "wus" then
    .ok (durationSource + 0.05 * stm.hypoDistance)
  else if stm.region = "ceus" then
    .ok (durationSource + ceusPathDuration stm.hypoDistance)
  else
    .error .unsupportedRegion

/-- Convergence tolerance of the correction loop (motions.py line 374). -/
def tolerance (α : Type) [LinearOrderedField α] : α := 5e-6

/-- Iteration cap of the correction loop (motions.py line 373). -/
def maxIterations : ℕ := 30

/-- State carried by the correction loop of CompatibleRvtMotion (motions.py
lines 370-408): the fourier_amp array and the rmse and iterations members
of the instance. -/
structure CorrState (α : Type) where
  fourierAmp : List α
  rmse : α
  iterations : ℕ

/-- Fuelled unfolding of the while loop at motions.py line 382: while
iterations < max_iterations and tolerance < rmse, run the body.  The loop
body (lines 388-408, the ratio correction, re-extrapolation, optional
smoothing and rmse recomputation) is passed in as a function; its one
property used below is that it increments iterations by exactly 1 (line
405). -/
def corrLoop {α : Type} [LinearOrderedField α]
    (body : CorrState α → CorrState α) : ℕ → CorrState α → CorrState α
  | 0, s => s
  | fuel + 1, s =>
    if s.iterations < maxIterations ∧ tolerance α < s.rmse then
      corrLoop body fuel (body s)
    else s

/-- Initial correction-loop state (motions.py lines 370-371):
iterations = 0 and rmse = 1. -/
def corrInit {α : Type} [LinearOrderedField α] (amp : List α) : CorrState α :=
  ⟨amp, 1, 0⟩

/-- The correction loop run to completion: 31 units of fuel always suffice
because the guard requires iterations < 30 and the body increments
iterations, so corrLoop with this fuel computes the exact result of the
unbounded while loop. -/
def runCorrection {α : Type} [LinearOrderedField α]
    (body : CorrState α → CorrState α) (amp : List α) : CorrState α :=
  corrLoop body (maxIterations + 1) (corrInit amp)

/-- Concrete loop body used for witnesses: increments iterations, leaves
rmse and the amplitude array unchanged. -/
def bodyW : CorrState ℚ → CorrState ℚ :=
  fun s => ⟨s.fourierAmp, s.rmse, s.iterations + 1⟩

/-- Concrete constructed SourceTheoryMotion over ℚ used for witnesses, with
identity sqrt and a dummy power function. -/
def stmWitness : STM ℚ :=
  mkSTM id (fun b _ => b) 6 10 "wus" 3.5 180 0.45 2.8 0.04
    [(-1, some 40), (-0.5, none)] 100 wusSiteAmpFreqs wusSiteAmpValues

/-- Agreement up to amplitude index k between two seed-loop states over
arrays of length n: totals, fa_sqr_prev values, call traces and lengths
coincide, and the amplitude entries below k coincide (the entries at and
above k may still hold differing junk). -/
def SeedAgree {α : Type} [LinearOrderedField α] (n k : ℕ)
    (s₁ s₂ : SeedState α) : Prop :=
  s₁.total = s₂.total ∧ s₁.faSqrPrev = s₂.faSqrPrev ∧
  s₁.drmsCalls = s₂.drmsCalls ∧
  s₁.fourierAmp.length = n ∧ s₂.fourierAmp.length = n ∧
  ∀ m, m < k → s₁.fourierAmp.getD m 0 = s₂.fourierAmp.getD m 0

/-! Helper lemmas shared by the claim theorems. -/

theorem getD_of_lt {α : Type} (l : List α) (i : ℕ) (d : α)
    (h : i < l.length) : l.getD i d = l[i] := by
  simp [List.getD_eq_getElem?_getD, List.getElem?_eq_getElem h]

theorem getD_set_eq {α : Type} (l : List α) (i : ℕ) (v d : α)
    (h : i < l.length) : (l.set i v).getD i d = v := by
  rw [getD_of_lt _ _ _ (by simpa using h)]
  simp [List.getElem_set_self]

theorem getD_set_ne {α : Type} (l : List α) (i j : ℕ) (v d : α)
    (h : i ≠ j) : (l.set i v).getD j d = l.getD j d := by
  simp [List.getD_eq_getElem?_getD, List.getElem?_set_ne h]

theorem getD_range_map {α : Type} (g : ℕ → α) (n i : ℕ) (d : α)
    (h : i < n) : ((List.range n).map g).getD i d = g i := by
  rw [getD_of_lt _ _ _ (by simpa using h)]
  simp

theorem range_map_getD {α β : Type} (l : List α) (d : α) (g : α → β) :
    (List.range l.length).map (fun i => g (l.getD i d)) = l.map g := by
  apply List.ext_getElem
  · simp
  · intro i h₁ h₂
    have hi : i < l.length := by simpa using h₁
    simp [List.getElem?_eq_getElem hi]

theorem seedState_ext {α : Type} {s₁ s₂ : SeedState α}
    (h1 : s₁.fourierAmp = s₂.fourierAmp) (h2 : s₁.faSqrPrev = s₂.faSqrPrev)
    (h3 : s₁.total = s₂.total) (h4 : s₁.drmsCalls = s₂.drmsCalls) :
    s₁ = s₂ := by
  cases s₁
  cases s₂
  simp_all

theorem seed_foldl_faSqrPrev {α : Type} [LinearOrderedField α]
    (pc : PeakCalc α) (sqrtF : α → α) (damping sdofF : α) (fs rs : List α)
    (l : List ℕ) : ∀ s : SeedState α,
    (l.foldl (vanmarckeStep pc sqrtF damping sdofF fs rs) s).faSqrPrev =
      s.faSqrPrev := by
  induction l with
  | nil => intro s; rfl
  | cons i l ih =>
    intro s
    rw [List.foldl_cons, ih]
    rfl

theorem seed_foldl_drmsCalls {α : Type} [LinearOrderedField α]
    (pc : PeakCalc α) (sqrtF : α → α) (damping sdofF : α) (fs rs : List α)
    (l : List ℕ) : ∀ s : SeedState α,
    (l.foldl (vanmarckeStep pc sqrtF damping sdofF fs rs) s).drmsCalls =
      s.drmsCalls ++ l.map fun i => (fs.getD i 0, damping, "boore_joyner") := by
  induction l with
  | nil => intro s; simp
  | cons i l ih =>
    intro s
    rw [List.foldl_cons, ih]
    have hstep : (vanmarckeStep pc sqrtF damping sdofF fs rs s i).drmsCalls =
        s.drmsCalls ++ [(fs.getD i 0, damping, "boore_joyner")] := rfl
    rw [hstep]
    simp

theorem vanmarckeStep_pc_congr {α : Type} [LinearOrderedField α]
    (pc₁ pc₂ : PeakCalc α) (sqrtF : α → α) (damping sdofF : α)
    (fs rs : List α)
    (h : ∀ f, pc₁.computeDurationRms f damping "boore_joyner" =
      pc₂.computeDurationRms f damping "boore_joyner")
    (s : SeedState α) (i : ℕ) :
    vanmarckeStep pc₁ sqrtF damping sdofF fs rs s i =
      vanmarckeStep pc₂ sqrtF damping sdofF fs rs s i := by
  have hf : faSqrRaw pc₁ damping sdofF fs rs s i =
      faSqrRaw pc₂ damping sdofF fs rs s i := by
    simp only [faSqrRaw, computeDurationRmsCall, h]
  simp only [vanmarckeStep, hf]

theorem seed_foldl_pc_congr {α : Type} [LinearOrderedField α]
    (pc₁ pc₂ : PeakCalc α) (sqrtF : α → α) (damping sdofF : α)
    (fs rs : List α)
    (h : ∀ f, pc₁.computeDurationRms f damping "boore_joyner" =
      pc₂.computeDurationRms f damping "boore_joyner")
    (l : List ℕ) : ∀ s : SeedState α,
    l.foldl (vanmarckeStep pc₁ sqrtF damping sdofF fs rs) s =
      l.foldl (vanmarckeStep pc₂ sqrtF damping sdofF fs rs) s := by
  induction l with
  | nil => intro s; rfl
  | cons i l ih =>
    intro s
    rw [List.foldl_cons, List.foldl_cons,
      vanmarckeStep_pc_congr pc₁ pc₂ sqrtF damping sdofF fs rs h, ih]

/-! Claim theorems. -/

/-- C1: the claim states that for i > 0 the running total is advanced by
(fa_sqr[i] - fa_sqr[i-1]) / 2 * (osc_freq[i] - osc_freq[i-1]), where
fa_sqr[i-1] is the squared-amplitude value computed at the previous
iteration.  The source initializes fa_sqr_prev = 0 at motions.py line 287
and never reassigns it anywhere in the loop, so the subtracted value is
always 0 (first conjunct).  On the concrete input osc_freq = [1, 2],
target = [1, 1], damping = 1 (pi embedded as 8, making the sdof factor 1)
and constant duration_rms 25/2, the code yields total = 5/8 after the
second iteration, while the update worded as in the claim (vanmarckeStepSpec,
which does reassign fa_sqr_prev each iteration) yields total = 1/8. -/
theorem C1_total_uses_stale_fa_sqr_prev :
    (∀ (α : Type) [LinearOrderedField α] (pc : PeakCalc α) (sqrtF : α → α)
      (piV damping : α) (fs rs junk : List α),
      (vanmarckeSeed pc sqrtF piV damping fs rs junk).faSqrPrev = 0) ∧
    (vanmarckeSeed constPC id 8 1 [1, 2] [1, 1] [0, 0]).total = 5 / 8 ∧
    (vanmarckeSeedSpec constPC id 8 1 [1, 2] [1, 1] [0, 0]).total = 1 / 8 ∧
    (vanmarckeSeed constPC id 8 1 [1, 2] [1, 1] [0, 0]).total ≠
      (vanmarckeSeedSpec constPC id 8 1 [1, 2] [1, 1] [0, 0]).total := by
  have h1 : ∀ (α : Type) [LinearOrderedField α] (pc : PeakCalc α)
      (sqrtF : α → α) (piV damping : α) (fs rs junk : List α),
      (vanmarckeSeed pc sqrtF piV damping fs rs junk).faSqrPrev = 0 := by
    intro α _ pc sqrtF piV damping fs rs junk
    rw [vanmarckeSeed, seed_foldl_faSqrPrev]
  have h2 : (vanmarckeSeed constPC id 8 1 [1, 2] [1, 1] [0, 0]).total =
      5 / 8 := by
    norm_num [vanmarckeSeed, vanmarckeStep, faSqrRaw, constPC,
      computeDurationRmsCall, peakFactor, sdofFactor, pyPrev, List.range_succ]
  have h3 : (vanmarckeSeedSpec constPC id 8 1 [1, 2] [1, 1] [0, 0]).total =
      1 / 8 := by
    norm_num [vanmarckeSeedSpec, vanmarckeStepSpec, faSqrRaw, constPC,
      computeDurationRmsCall, peakFactor, sdofFactor, pyPrev, List.range_succ]
  refine ⟨h1, h2, h3, ?_⟩
  rw [h2, h3]
  norm_num

/-- C2: in the Step-1 seed, the value duration_rms used at target point i
is obtained from the injected peak-calculator capability, called with that
point's oscillator frequency, the damping, and the method string
boore_joyner.  First conjunct: the recorded capability calls are exactly
(osc_freq[i], damping, boore_joyner) in loop order.  Second conjunct: the
seed depends on the peak calculator only through its compute_duration_rms
values at (osc_freq, damping, boore_joyner), so any two calculators
agreeing there produce identical seeds.  The method _compute_duration_rms
is not defined in the available source and is modelled from the spec as
delegation to the capability (computeDurationRmsCall). -/
theorem C2_duration_rms_from_capability :
    (∀ (α : Type) [LinearOrderedField α] (pc : PeakCalc α) (sqrtF : α → α)
      (piV damping : α) (fs rs junk : List α),
      (vanmarckeSeed pc sqrtF piV damping fs rs junk).drmsCalls =
        fs.map fun f => (f, damping, "boore_joyner")) ∧
    (∀ (α : Type) [LinearOrderedField α] (pc₁ pc₂ : PeakCalc α)
      (sqrtF : α → α) (piV damping : α) (fs rs junk : List α),
      (∀ f, pc₁.computeDurationRms f damping "boore_joyner" =
        pc₂.computeDurationRms f damping "boore_joyner") →
      vanmarckeSeed pc₁ sqrtF piV damping fs rs junk =
        vanmarckeSeed pc₂ sqrtF piV damping fs rs junk) := by
  constructor
  · intro α _ pc sqrtF piV damping fs rs junk
    rw [vanmarckeSeed, seed_foldl_drmsCalls]
    rw [range_map_getD fs 0 (fun f => (f, damping, "boore_joyner"))]
    simp
  · intro α _ pc₁ pc₂ sqrtF piV damping fs rs junk h
    rw [vanmarckeSeed, vanmarckeSeed, seed_foldl_pc_congr pc₁ pc₂ _ _ _ _ _ h]

/-- Witness for C2: two distinct peak calculators that agree on method
boore_joyner produce the same seed on a concrete input. -/
theorem C2_witness :
    vanmarckeSeed constPC id 8 1 [1, 2] [1, 1] [0, 0] =
      vanmarckeSeed constPC2 id 8 1 [1, 2] [1, 1] [0, 0] :=
  C2_duration_rms_from_capability.2 ℚ constPC constPC2 id 8 1 [1, 2] [1, 1]
    [0, 0] (fun _ => rfl)

/-- C3: one iteration of the Step-1 seed never fails: when the raw squared
increment is negative the amplitude is flattened to the Python read
fourier_amp[i-1] and the squared increment is recomputed as its square
before the running total is updated, and otherwise the amplitude is the
square root of the increment.  Stated for an arbitrary loop state, hence
for every index of the loop. -/
theorem C3_negative_fa_sqr_flattens :
    ∀ (α : Type) [LinearOrderedField α] (pc : PeakCalc α) (sqrtF : α → α)
      (damping sdofF : α) (fs rs : List α) (s : SeedState α) (i : ℕ),
    (faSqrRaw pc damping sdofF fs rs s i < 0 →
      (vanmarckeStep pc sqrtF damping sdofF fs rs s i).fourierAmp =
        s.fourierAmp.set i (pyPrev s.fourierAmp i 0) ∧
      (vanmarckeStep pc sqrtF damping sdofF fs rs s i).total =
        (if i = 0 then (pyPrev s.fourierAmp i 0) ^ 2 * fs.getD i 0 / 2
         else s.total + ((pyPrev s.fourierAmp i 0) ^ 2 - s.faSqrPrev) / 2 *
           (fs.getD i 0 - fs.getD (i - 1) 0))) ∧
    (0 ≤ faSqrRaw pc damping sdofF fs rs s i →
      (vanmarckeStep pc sqrtF damping sdofF fs rs s i).fourierAmp =
        s.fourierAmp.set i (sqrtF (faSqrRaw pc damping sdofF fs rs s i))) := by
  intro α _ pc sqrtF damping sdofF fs rs s i
  constructor
  · intro hneg
    constructor
    · simp only [vanmarckeStep, if_pos hneg]
    · simp only [vanmarckeStep, if_pos hneg]
  · intro hpos
    simp only [vanmarckeStep, if_neg (not_lt.mpr hpos)]

/-- Witness for C3: a concrete negative-increment step flattens (state with
total = 100 at index 1) and a concrete non-negative step takes the square
root (state with total = 0 at index 0). -/
theorem C3_witness :
    (vanmarckeStep constPC id 1 1 [1, 2] [1, 1]
      ⟨[7, 9], 0, 100, []⟩ 1).fourierAmp = [7, 7] ∧
    (vanmarckeStep constPC id 1 1 [1, 2] [1, 1]
      ⟨[7, 9], 0, 100, []⟩ 1).total = 249 / 2 ∧
    (vanmarckeStep constPC id 1 1 [1, 2] [1, 1]
      ⟨[7, 9], 0, 0, []⟩ 0).fourierAmp = [1, 9] := by
  have hneg : faSqrRaw constPC 1 1 [1, 2] [1, 1] ⟨[7, 9], 0, 100, []⟩ 1 < 0 := by
    norm_num [faSqrRaw, constPC, computeDurationRmsCall, peakFactor]
  have hpos : (0 : ℚ) ≤ faSqrRaw constPC 1 1 [1, 2] [1, 1] ⟨[7, 9], 0, 0, []⟩ 0 := by
    norm_num [faSqrRaw, constPC, computeDurationRmsCall, peakFactor]
  have h := (C3_negative_fa_sqr_flattens ℚ constPC id 1 1 [1, 2] [1, 1]
    ⟨[7, 9], 0, 100, []⟩ 1).1 hneg
  have h' := (C3_negative_fa_sqr_flattens ℚ constPC id 1 1 [1, 2] [1, 1]
    ⟨[7, 9], 0, 0, []⟩ 0).2 hpos
  refine ⟨?_, ?_, ?_⟩
  · rw [h.1]
    norm_num [pyPrev]
  · rw [h.2]
    norm_num [pyPrev]
  · rw [h']
    norm_num [faSqrRaw, constPC, computeDurationRmsCall, peakFactor]

theorem corrLoop_of_not_guard {α : Type} [LinearOrderedField α]
    (body : CorrState α → CorrState α) (fuel : ℕ) (s : CorrState α)
    (h : ¬(s.iterations < maxIterations ∧ tolerance α < s.rmse)) :
    corrLoop body fuel s = s := by
  cases fuel with
  | zero => rfl
  | succ n => simp [corrLoop, h]

theorem corrLoop_not_guard_final {α : Type} [LinearOrderedField α]
    (body : CorrState α → CorrState α)
    (hinc : ∀ s : CorrState α, (body s).iterations = s.iterations + 1)
    (fuel : ℕ) : ∀ s : CorrState α, maxIterations < s.iterations + fuel →
    ¬((corrLoop body fuel s).iterations < maxIterations ∧
      tolerance α < (corrLoop body fuel s).rmse) := by
  induction fuel with
  | zero =>
    intro s hs
    rw [corrLoop]
    rintro ⟨h1, -⟩
    omega
  | succ n ih =>
    intro s hs
    rw [corrLoop]
    by_cases hg : s.iterations < maxIterations ∧ tolerance α < s.rmse
    · rw [if_pos hg]
      exact ih (body s) (by rw [hinc]; omega)
    · rw [if_neg hg]
      exact hg

theorem corrLoop_iterations_le {α : Type} [LinearOrderedField α]
    (body : CorrState α → CorrState α)
    (hinc : ∀ s : CorrState α, (body s).iterations = s.iterations + 1)
    (fuel : ℕ) : ∀ s : CorrState α, s.iterations ≤ maxIterations →
    (corrLoop body fuel s).iterations ≤ maxIterations := by
  induction fuel with
  | zero =>
    intro s hs
    rw [corrLoop]
    exact hs
  | succ n ih =>
    intro s hs
    rw [corrLoop]
    by_cases hg : s.iterations < maxIterations ∧ tolerance α < s.rmse
    · rw [if_pos hg]
      refine ih (body s) ?_
      have h1 := hg.1
      rw [hinc]
      omega
    · rw [if_neg hg]
      exact hs

/-- C4: the correction loop runs while iterations < 30 and rmse > 5e-6, the
loop body increments iterations by exactly 1 (motions.py line 405), and the
initial state has iterations = 0 and rmse = 1, so the loop terminates after
at most 30 iterations; on exit either rmse <= 5e-6 or iterations = 30, no
error is raised (the loop is a total function of the state) and the final
state, with its fourier_amp, rmse and iterations, is returned.  The third
conjunct shows the fuelled unfolding is complete: running the loop again on
the result, with any amount of fuel, changes nothing. -/
theorem C4_correction_loop_terminates :
    ∀ (α : Type) [LinearOrderedField α] (body : CorrState α → CorrState α)
      (amp : List α),
    (∀ s, (body s).iterations = s.iterations + 1) →
    (runCorrection body amp).iterations ≤ 30 ∧
    ((runCorrection body amp).rmse ≤ 5e-6 ∨
      (runCorrection body amp).iterations = 30) ∧
    (∀ extra, corrLoop body extra (runCorrection body amp) =
      runCorrection body amp) := by
  intro α _ body amp hinc
  have h0 : (corrInit (α := α) amp).iterations = 0 := rfl
  have hng := corrLoop_not_guard_final body hinc (maxIterations + 1)
    (corrInit amp) (by omega)
  have hle := corrLoop_iterations_le body hinc (maxIterations + 1)
    (corrInit amp) (by omega)
  have hrun : runCorrection body amp =
      corrLoop body (maxIterations + 1) (corrInit amp) := rfl
  rw [hrun]
  have hmax : maxIterations = 30 := rfl
  refine ⟨by omega, ?_, ?_⟩
  · rcases not_and_or.mp hng with h | h
    · right
      omega
    · left
      have := not_lt.mp h
      simpa [tolerance] using this
  · intro extra
    exact corrLoop_of_not_guard body extra _ hng

/-- Witness for C4: the loop control applied to a concrete incrementing
body over ℚ. -/
theorem C4_witness :
    (runCorrection bodyW []).iterations ≤ 30 ∧
    ((runCorrection bodyW []).rmse ≤ 5e-6 ∨
      (runCorrection bodyW []).iterations = 30) ∧
    corrLoop bodyW 5 (runCorrection bodyW []) = runCorrection bodyW [] := by
  obtain ⟨h1, h2, h3⟩ :=
    C4_correction_loop_terminates ℚ bodyW [] (fun _ => rfl)
  exact ⟨h1, h2, h3 5⟩

theorem writeRange_length {α : Type} [LinearOrderedField α] (l : List α)
    (lo hi : ℕ) (f : ℕ → α) : (writeRange l lo hi f).length = l.length := by
  simp [writeRange]

theorem writeRange_getD {α : Type} [LinearOrderedField α] (l : List α)
    (lo hi : ℕ) (f : ℕ → α) (i : ℕ) (h : i < l.length) :
    (writeRange l lo hi f).getD i 0 =
      if lo ≤ i ∧ i < hi then f i else l.getD i 0 := by
  rw [writeRange, getD_range_map _ _ _ _ h]

/-- C5: the extrapolation routine writes only the two flanking ranges
[0, first) and [last, end), leaving every interior entry unchanged; the low
end uses the slope of the points at indices first and first+1, the high end
the slope of the points at indices last-2 and last-1, both with max_slope
None (no cap); evaluating the extrapolation formula at the boundary
frequencies reproduces the boundary amplitudes whenever expF inverts logF
there, so the extrapolated curve is continuous with the interior at the
boundary indices. -/
theorem C5_extrapolate_frame :
    ∀ (α : Type) [LinearOrderedField α] [DecidableEq α] (expF logF : α → α)
      (freq famp : List α) (first last : ℕ),
    first + 2 ≤ last → last ≤ famp.length →
    ((∀ i, first ≤ i → i < last →
      (extrapolate expF logF freq famp first last).getD i 0 =
        famp.getD i 0) ∧
     (∀ i, i < first →
      (extrapolate expF logF freq famp first last).getD i 0 =
        extrapPoint expF logF (freq.getD i 0) (freq.getD first 0)
          (freq.getD (first + 1) 0) (famp.getD first 0)
          (famp.getD (first + 1) 0) none) ∧
     (∀ i, last ≤ i → i < famp.length →
      (extrapolate expF logF freq famp first last).getD i 0 =
        extrapPoint expF logF (freq.getD i 0) (freq.getD (last - 2) 0)
          (freq.getD (last - 1) 0) (famp.getD (last - 2) 0)
          (famp.getD (last - 1) 0) none) ∧
     (expF (logF (famp.getD first 0)) = famp.getD first 0 →
      extrapPoint expF logF (freq.getD first 0) (freq.getD first 0)
        (freq.getD (first + 1) 0) (famp.getD first 0)
        (famp.getD (first + 1) 0) none = famp.getD first 0) ∧
     (expF (logF (famp.getD (last - 1) 0)) = famp.getD (last - 1) 0 →
      logF (freq.getD (last - 1) 0) ≠ logF (freq.getD (last - 2) 0) →
      extrapPoint expF logF (freq.getD (last - 1) 0)
        (freq.getD (last - 2) 0) (freq.getD (last - 1) 0)
        (famp.getD (last - 2) 0) (famp.getD (last - 1) 0) none =
        famp.getD (last - 1) 0)) := by
  intro α _ _ expF logF freq famp first last h2 hlen
  refine ⟨?_, ?_, ?_, ?_, ?_⟩
  · intro i hfi hil
    have hi : i < famp.length := lt_of_lt_of_le hil hlen
    simp only [extrapolate]
    rw [writeRange_getD _ _ _ _ i (by rw [writeRange_length]; exact hi)]
    rw [if_neg (by rintro ⟨hc, -⟩; omega)]
    rw [writeRange_getD _ _ _ _ i hi]
    rw [if_neg (by rintro ⟨-, hc⟩; omega)]
  · intro i hif
    have hi : i < famp.length := by omega
    simp only [extrapolate]
    rw [writeRange_getD _ _ _ _ i (by rw [writeRange_length]; exact hi)]
    rw [if_neg (by rintro ⟨hc, -⟩; omega)]
    rw [writeRange_getD _ _ _ _ i hi]
    rw [if_pos ⟨Nat.zero_le i, hif⟩]
  · intro i hli hi
    simp only [extrapolate]
    rw [writeRange_getD _ _ _ _ i (by rw [writeRange_length]; exact hi)]
    rw [if_pos ⟨hli, by rw [writeRange_length]; exact hi⟩]
    rw [writeRange_getD _ _ _ _ (last - 2) (by omega)]
    rw [writeRange_getD _ _ _ _ (last - 1) (by omega)]
    rw [if_neg (by rintro ⟨-, hc⟩; omega)]
    rw [if_neg (by rintro ⟨-, hc⟩; omega)]
  · intro hinv
    simp only [extrapPoint, sub_self, mul_zero, zero_add]
    exact hinv
  · intro hinv hne
    simp only [extrapPoint]
    rw [div_mul_cancel₀ _ (sub_ne_zero_of_ne hne), sub_add_cancel]
    exact hinv

/-- Witness for C5: concrete instantiation over ℚ with identity exp and
log, freq = [1..6], famp = [10..60], first = 2, last = 5. -/
theorem C5_witness :
    (extrapolate (α := ℚ) id id [1, 2, 3, 4, 5, 6] [10, 20, 30, 40, 50, 60]
      2 5).getD 3 0 = 40 ∧
    (extrapolate (α := ℚ) id id [1, 2, 3, 4, 5, 6] [10, 20, 30, 40, 50, 60]
      2 5).getD 0 0 = 10 ∧
    (extrapolate (α := ℚ) id id [1, 2, 3, 4, 5, 6] [10, 20, 30, 40, 50, 60]
      2 5).getD 5 0 = 60 := by
  obtain ⟨ha, hb, hc, -, -⟩ := C5_extrapolate_frame ℚ id id
    [1, 2, 3, 4, 5, 6] [10, 20, 30, 40, 50, 60] 2 5 (by omega) (by norm_num)
  refine ⟨?_, ?_, ?_⟩
  · rw [ha 3 (by omega) (by omega)]
    norm_num
  · rw [hb 0 (by omega)]
    norm_num [extrapPoint]
  · rw [hc 5 (by omega) (by norm_num)]
    norm_num [extrapPoint]

/-- C6 counterexample: the claim asserts that compute fails with the
InvalidSegments error on an empty segment list and when a non-final segment
has no distance limit.  The source function contains no raise statement at
all: on the empty list it returns 1, and a non-final unlimited segment
simply ends the loop, here returning 1/2 with the rest of the list ignored.
Both evaluations return values, refuting the claimed failure. -/
theorem C6_counterexample :
    computeGeometricSpreading (fun b _ => b) (2 : ℚ) [] = 1 ∧
    computeGeometricSpreading (fun b _ => b) (2 : ℚ)
      [(1, none), (3, some 40)] = 1 / 2 := by
  constructor
  · norm_num [computeGeometricSpreading, cgsLoop]
  · norm_num [computeGeometricSpreading, cgsLoop]

/-- C6 amended: compute_geometric_spreading never fails: on an empty
segment list it returns 1 (the initial multiplier), and a leading segment
without a distance limit makes its power law govern alone, the remaining
segments being ignored; for well-formed inputs it likewise returns the
piecewise product, never an error. -/
theorem C6_amended_never_fails :
    ∀ (α : Type) [LinearOrderedField α] (powF : α → α → α) (d slope : α)
      (rest : List (α × Option α)),
    computeGeometricSpreading powF d [] = 1 ∧
    computeGeometricSpreading powF d ((slope, none) :: rest) =
      powF (1 / d) slope := by
  intro α _ powF d slope rest
  refine ⟨rfl, ?_⟩
  simp [computeGeometricSpreading, cgsLoop]

/-- C7: construction of SourceTheoryMotion raises exactly when the
lowercased region is neither wus nor ceus (the source raises
NotImplementedError, named UnsupportedRegionError by the spec taxonomy);
the failure occurs at construction, so no instance with a defaulted region
is produced, and each supported region yields the instance built from its
hardcoded constant table. -/
theorem C7_unsupported_region_raises :
    ∀ (α : Type) [LinearOrderedField α] [DecidableEq α] (sqrtF : α → α)
      (powF : α → α → α) (m d : α) (region : String) (sd : Option α),
    ((initSTM sqrtF powF m d region sd = .error STError.unsupportedRegion) ↔
      (strLower region ≠ "wus" ∧ strLower region ≠ "ceus")) ∧
    (strLower region = "wus" →
      initSTM sqrtF powF m d region sd =
        .ok (mkSTM sqrtF powF m d "wus" 3.5 180 0.45 2.8 0.04
          [((-1 : α), some 40), (-0.5, none)] (resolveStressDrop sd 100)
          wusSiteAmpFreqs wusSiteAmpValues)) ∧
    (strLower region = "ceus" →
      initSTM sqrtF powF m d region sd =
        .ok (mkSTM sqrtF powF m d "ceus" 3.6 680 0.36 2.8 0.006
          [((-1 : α), some 70), (0, some 130), (-0.5, none)]
          (resolveStressDrop sd 150) ceusSiteAmpFreqs ceusSiteAmpValues)) := by
  intro α _ _ sqrtF powF m d region sd
  by_cases h1 : strLower region = "wus"
  · have hok : initSTM sqrtF powF m d region sd =
        .ok (mkSTM sqrtF powF m d "wus" 3.5 180 0.45 2.8 0.04
          [((-1 : α), some 40), (-0.5, none)] (resolveStressDrop sd 100)
          wusSiteAmpFreqs wusSiteAmpValues) := by
      simp only [initSTM]
      rw [if_pos h1, h1]
    refine ⟨⟨fun he => ?_, fun hne => absurd h1 hne.1⟩, fun _ => hok,
      fun hc => ?_⟩
    · rw [hok] at he
      exact Except.noConfusion he
    · rw [h1] at hc
      exact absurd hc (by decide)
  · by_cases h2 : strLower region = "ceus"
    · have hok : initSTM sqrtF powF m d region sd =
          .ok (mkSTM sqrtF powF m d "ceus" 3.6 680 0.36 2.8 0.006
            [((-1 : α), some 70), (0, some 130), (-0.5, none)]
            (resolveStressDrop sd 150) ceusSiteAmpFreqs
            ceusSiteAmpValues) := by
        simp only [initSTM]
        rw [if_neg h1, if_pos h2, h2]
      refine ⟨⟨fun he => ?_, fun hne => absurd h2 hne.2⟩,
        fun hc => absurd h2 (by rw [hc]; decide), fun _ => hok⟩
      rw [hok] at he
      exact Except.noConfusion he
    · have herr : initSTM sqrtF powF m d region sd =
          .error STError.unsupportedRegion := by
        simp only [initSTM]
        rw [if_neg h1, if_neg h2]
      exact ⟨⟨fun _ => ⟨h1, h2⟩, fun _ => herr⟩, fun hc => absurd hc h1,
        fun hc => absurd hc h2⟩

/-- Witness for C7: an unsupported region fails at construction; the
supported region WUS (case-insensitively) constructs the WUS-table
instance. -/
theorem C7_witness :
    initSTM (α := ℚ) id (fun b _ => b) 6 10 "Atlantis" none =
      .error STError.unsupportedRegion ∧
    initSTM (α := ℚ) id (fun b _ => b) 6 10 "WUS" none =
      .ok (mkSTM id (fun b _ => b) 6 10 "wus" 3.5 180 0.45 2.8 0.04
        [(-1, some 40), (-0.5, none)] (resolveStressDrop none 100)
        wusSiteAmpFreqs wusSiteAmpValues) := by
  constructor
  · exact (C7_unsupported_region_raises ℚ id (fun b _ => b) 6 10 "Atlantis"
      none).1.mpr ⟨by decide, by decide⟩
  · exact (C7_unsupported_region_raises ℚ id (fun b _ => b) 6 10 "WUS"
      none).2.1 (by decide)

theorem ceusPathDuration_eq {α : Type} [LinearOrderedField α] (r : α) :
    ceusPathDuration r =
      0.16 * max 0 (min r 70 - 10) + (-0.03) * max 0 (min r 130 - 70) +
        0.04 * max 0 (r - 130) := by
  simp only [ceusPathDuration]
  rcases le_or_lt r 10 with h1 | h1
  · rw [if_neg (by linarith), if_neg (by linarith), if_neg (by linarith)]
    rw [max_eq_left (by rw [min_eq_left (by linarith)]; linarith),
      max_eq_left (by rw [min_eq_left (by linarith)]; linarith),
      max_eq_left (by linarith)]
    ring
  · rcases le_or_lt r 70 with h2 | h2
    · rw [if_pos h1, if_neg (by linarith), if_neg (by linarith)]
      rw [min_eq_left h2, min_eq_left (by linarith)]
      rw [max_eq_right (by linarith), max_eq_left (by linarith),
        max_eq_left (by linarith)]
      ring
    · rcases le_or_lt r 130 with h3 | h3
      · rw [if_pos h1, if_pos h2, if_neg (by linarith)]
        rw [min_eq_right (by linarith), min_eq_left h3]
        rw [max_eq_right (by linarith), max_eq_right (by linarith),
          max_eq_left (by linarith)]
        ring
      · rw [if_pos h1, if_pos h2, if_pos h3]
        rw [min_eq_right (by linarith), min_eq_right (by linarith)]
        rw [max_eq_right (by linarith), max_eq_right (by linarith),
          max_eq_right (by linarith)]
        ring

theorem ceusPathDuration_continuousR :
    Continuous fun r : ℝ => ceusPathDuration r := by
  have h : (fun r : ℝ => ceusPathDuration r) = fun r : ℝ =>
      0.16 * max 0 (min r 70 - 10) + (-0.03) * max 0 (min r 130 - 70) +
        0.04 * max 0 (r - 130) := funext fun r => ceusPathDuration_eq r
  rw [h]
  exact ((continuous_const.mul (continuous_const.max
      ((continuous_id.min continuous_const).sub continuous_const))).add
    (continuous_const.mul (continuous_const.max
      ((continuous_id.min continuous_const).sub continuous_const)))).add
    (continuous_const.mul (continuous_const.max
      (continuous_id.sub continuous_const)))

theorem initSTM_ok_region {α : Type} [LinearOrderedField α] [DecidableEq α]
    (sqrtF : α → α) (powF : α → α → α) (m d : α) (region : String)
    (sd : Option α) (stm : STM α)
    (hok : initSTM sqrtF powF m d region sd = .ok stm) :
    stm.region = "wus" ∨ stm.region = "ceus" := by
  simp only [initSTM] at hok
  by_cases h1 : strLower region = "wus"
  · rw [if_pos h1] at hok
    injection hok with h
    left
    rw [← h]
    exact h1
  · rw [if_neg h1] at hok
    by_cases h2 : strLower region = "ceus"
    · rw [if_pos h2] at hok
      injection hok with h
      right
      rw [← h]
      exact h2
    · rw [if_neg h2] at hok
      exact Except.noConfusion hok

theorem computeDuration_formula {α : Type} [LinearOrderedField α]
    (stm : STM α) (h : stm.region = "wus" ∨ stm.region = "ceus") :
    STM.computeDuration stm =
      .ok (1 / stm.cornerFreq +
        (if stm.region = "wus" then 0.05 * stm.hypoDistance
         else ceusPathDuration stm.hypoDistance)) := by
  rcases h with h | h
  · simp [STM.computeDuration, h]
  · simp [STM.computeDuration, h]

/-- C8: every constructed SourceTheoryMotion has duration
1/corner_frequency plus the region path term, 0.05 times the hypocentral
distance for wus and the three-breakpoint piecewise-linear term for ceus;
the ceus term equals the closed form with each segment contributing only
above its breakpoint and capped at the next one, and is continuous at
distances 10, 70 and 130 km. -/
theorem C8_duration_formula :
    (∀ (α : Type) [LinearOrderedField α] [DecidableEq α] (sqrtF : α → α)
      (powF : α → α → α) (m d : α) (region : String) (sd : Option α)
      (stm : STM α),
      initSTM sqrtF powF m d region sd = .ok stm →
      STM.computeDuration stm =
        .ok (1 / stm.cornerFreq +
          (if stm.region = "wus" then 0.05 * stm.hypoDistance
           else ceusPathDuration stm.hypoDistance))) ∧
    (∀ (α : Type) [LinearOrderedField α] (r : α),
      ceusPathDuration r =
        0.16 * max 0 (min r 70 - 10) + (-0.03) * max 0 (min r 130 - 70) +
          0.04 * max 0 (r - 130)) ∧
    ContinuousAt (fun r : ℝ => ceusPathDuration r) 10 ∧
    ContinuousAt (fun r : ℝ => ceusPathDuration r) 70 ∧
    ContinuousAt (fun r : ℝ => ceusPathDuration r) 130 := by
  refine ⟨?_, fun α _ r => ceusPathDuration_eq r,
    ceusPathDuration_continuousR.continuousAt,
    ceusPathDuration_continuousR.continuousAt,
    ceusPathDuration_continuousR.continuousAt⟩
  intro α _ _ sqrtF powF m d region sd stm hok
  exact computeDuration_formula stm
    (initSTM_ok_region sqrtF powF m d region sd stm hok)

/-- Witness for C8: the duration formula evaluated on the concrete
constructed WUS motion. -/
theorem C8_witness :
    STM.computeDuration stmWitness =
      .ok (1 / stmWitness.cornerFreq +
        (if stmWitness.region = "wus"
         then (0.05 : ℚ) * stmWitness.hypoDistance
         else ceusPathDuration stmWitness.hypoDistance)) :=
  C8_duration_formula.1 ℚ id (fun b _ => b) 6 10 "wus" none stmWitness rfl

/-- C9: geometric spreading with the real power operator: a single
unlimited unit-slope segment gives 1/d for every positive distance, and for
the two-segment list [(1, 40), (0.5, None)] the value at d = 40, produced
by the first segment alone, is the limit of the two-segment value as d
approaches 40 from above (continuity at the breakpoint). -/
theorem C9_geometric_spreading_continuity :
    (∀ d : ℝ, 0 < d →
      computeGeometricSpreading (fun x y : ℝ => x ^ y) d [(1, none)] =
        1 / d) ∧
    Filter.Tendsto
      (fun d : ℝ => computeGeometricSpreading (fun x y : ℝ => x ^ y) d
        [(1, some 40), (0.5, none)])
      (nhdsWithin 40 (Set.Ioi 40))
      (nhds (computeGeometricSpreading (fun x y : ℝ => x ^ y) 40
        [(1, some 40), (0.5, none)])) := by
  constructor
  · intro d hd
    simp [computeGeometricSpreading, cgsLoop, Real.rpow_one]
  · have hval : computeGeometricSpreading (fun x y : ℝ => x ^ y) 40
        [(1, some 40), (0.5, none)] = (1 / 40 : ℝ) ^ (1 : ℝ) := by
      norm_num [computeGeometricSpreading, cgsLoop]
    have heq : ∀ d : ℝ, d ∈ Set.Ioi (40 : ℝ) →
        computeGeometricSpreading (fun x y : ℝ => x ^ y) d
          [(1, some 40), (0.5, none)] =
        (1 / 40 : ℝ) ^ (1 : ℝ) * (40 / d) ^ (0.5 : ℝ) := by
      intro d hd
      have hd40 : (40 : ℝ) < d := hd
      simp only [computeGeometricSpreading, cgsLoop]
      rw [if_neg (by norm_num : ¬(40 : ℝ) = 0), min_eq_right hd40.le,
        if_pos hd40, if_neg (lt_irrefl d), one_mul]
    have h1 : Filter.Tendsto (fun d : ℝ => 40 / d) (nhds 40) (nhds 1) := by
      have h := Filter.Tendsto.div
        (tendsto_const_nhds :
          Filter.Tendsto (fun _ : ℝ => (40 : ℝ)) (nhds 40) (nhds 40))
        Filter.tendsto_id (by norm_num : (40 : ℝ) ≠ 0)
      have h40 : (40 : ℝ) / 40 = 1 := by norm_num
      rw [h40] at h
      exact h
    have h2 : ContinuousAt (fun x : ℝ => x ^ (0.5 : ℝ)) 1 :=
      Real.continuousAt_rpow_const 1 0.5 (Or.inl one_ne_zero)
    have h3 : Filter.Tendsto (fun d : ℝ => (40 / d) ^ (0.5 : ℝ)) (nhds 40)
        (nhds ((1 : ℝ) ^ (0.5 : ℝ))) := h2.tendsto.comp h1
    have h4 : Filter.Tendsto
        (fun d : ℝ => (1 / 40 : ℝ) ^ (1 : ℝ) * (40 / d) ^ (0.5 : ℝ))
        (nhds 40) (nhds ((1 / 40 : ℝ) ^ (1 : ℝ))) := by
      have h5 := h3.const_mul ((1 / 40 : ℝ) ^ (1 : ℝ))
      rw [Real.one_rpow, mul_one] at h5
      exact h5
    rw [hval]
    refine Filter.Tendsto.congr'
      (Filter.eventuallyEq_of_mem self_mem_nhdsWithin
        fun d hd => (heq d hd).symm)
      (h4.mono_left nhdsWithin_le_nhds)

/-- Witness for C9: the single-segment spreading evaluated at distance 2. -/
theorem C9_witness :
    computeGeometricSpreading (fun x y : ℝ => x ^ y) 2 [(1, none)] =
      1 / 2 :=
  C9_geometric_spreading_continuity.1 2 (by norm_num)

theorem seedAgree_step {α : Type} [LinearOrderedField α] (pc : PeakCalc α)
    (sqrtF : α → α) (damping sdofF : α) (fs rs : List α) (n k : ℕ)
    (hk : k < n) (s₁ s₂ : SeedState α) (h : SeedAgree n k s₁ s₂)
    (h0 : k = 0 → 0 ≤ faSqrRaw pc damping sdofF fs rs s₁ 0) :
    SeedAgree n (k + 1) (vanmarckeStep pc sqrtF damping sdofF fs rs s₁ k)
      (vanmarckeStep pc sqrtF damping sdofF fs rs s₂ k) := by
  obtain ⟨ht, hp, hc, hl₁, hl₂, hm⟩ := h
  have hfa : faSqrRaw pc damping sdofF fs rs s₂ k =
      faSqrRaw pc damping sdofF fs rs s₁ k := by
    simp only [faSqrRaw, ht]
  by_cases hneg : faSqrRaw pc damping sdofF fs rs s₁ k < 0
  · rcases Nat.eq_zero_or_pos k with rfl | hkpos
    · exact absurd hneg (not_lt.mpr (h0 rfl))
    have hk0 : ¬k = 0 := Nat.pos_iff_ne_zero.mp hkpos
    have hneg₂ : faSqrRaw pc damping sdofF fs rs s₂ k < 0 := by
      rw [hfa]
      exact hneg
    have hv : pyPrev s₁.fourierAmp k 0 = pyPrev s₂.fourierAmp k 0 := by
      rw [pyPrev, pyPrev, if_neg hk0, if_neg hk0]
      exact hm (k - 1) (by omega)
    have e₁ : vanmarckeStep pc sqrtF damping sdofF fs rs s₁ k =
        ⟨s₁.fourierAmp.set k (pyPrev s₁.fourierAmp k 0), s₁.faSqrPrev,
          s₁.total + ((pyPrev s₁.fourierAmp k 0) ^ 2 - s₁.faSqrPrev) / 2 *
            (fs.getD k 0 - fs.getD (k - 1) 0),
          s₁.drmsCalls ++ [(fs.getD k 0, damping, "boore_joyner")]⟩ := by
      simp only [vanmarckeStep, if_pos hneg, if_neg hk0]
    have e₂ : vanmarckeStep pc sqrtF damping sdofF fs rs s₂ k =
        ⟨s₂.fourierAmp.set k (pyPrev s₂.fourierAmp k 0), s₂.faSqrPrev,
          s₂.total + ((pyPrev s₂.fourierAmp k 0) ^ 2 - s₂.faSqrPrev) / 2 *
            (fs.getD k 0 - fs.getD (k - 1) 0),
          s₂.drmsCalls ++ [(fs.getD k 0, damping, "boore_joyner")]⟩ := by
      simp only [vanmarckeStep, if_pos hneg₂, if_neg hk0]
    rw [e₁, e₂]
    refine ⟨by rw [ht, hp, hv], hp, by rw [hc], by simpa using hl₁,
      by simpa using hl₂, ?_⟩
    intro m hmk
    rcases Nat.lt_succ_iff_lt_or_eq.mp hmk with hlt | rfl
    · rw [getD_set_ne _ _ _ _ _ (by omega), getD_set_ne _ _ _ _ _ (by omega)]
      exact hm m hlt
    · rw [getD_set_eq _ _ _ _ (by omega), getD_set_eq _ _ _ _ (by omega)]
      exact hv
  · have hpos : ¬faSqrRaw pc damping sdofF fs rs s₂ k < 0 := by
      rw [hfa]
      exact hneg
    have e₁ : vanmarckeStep pc sqrtF damping sdofF fs rs s₁ k =
        ⟨s₁.fourierAmp.set k (sqrtF (faSqrRaw pc damping sdofF fs rs s₁ k)),
          s₁.faSqrPrev,
          (if k = 0
           then faSqrRaw pc damping sdofF fs rs s₁ k * fs.getD k 0 / 2
           else s₁.total +
             (faSqrRaw pc damping sdofF fs rs s₁ k - s₁.faSqrPrev) / 2 *
               (fs.getD k 0 - fs.getD (k - 1) 0)),
          s₁.drmsCalls ++ [(fs.getD k 0, damping, "boore_joyner")]⟩ := by
      simp only [vanmarckeStep, if_neg hneg]
    have e₂ : vanmarckeStep pc sqrtF damping sdofF fs rs s₂ k =
        ⟨s₂.fourierAmp.set k (sqrtF (faSqrRaw pc damping sdofF fs rs s₁ k)),
          s₂.faSqrPrev,
          (if k = 0
           then faSqrRaw pc damping sdofF fs rs s₁ k * fs.getD k 0 / 2
           else s₂.total +
             (faSqrRaw pc damping sdofF fs rs s₁ k - s₂.faSqrPrev) / 2 *
               (fs.getD k 0 - fs.getD (k - 1) 0)),
          s₂.drmsCalls ++ [(fs.getD k 0, damping, "boore_joyner")]⟩ := by
      simp only [vanmarckeStep, hfa, if_neg hneg]
    rw [e₁, e₂]
    refine ⟨by rw [ht, hp], hp, by rw [hc], by simpa using hl₁,
      by simpa using hl₂, ?_⟩
    intro m hmk
    rcases Nat.lt_succ_iff_lt_or_eq.mp hmk with hlt | rfl
    · rw [getD_set_ne _ _ _ _ _ (by omega), getD_set_ne _ _ _ _ _ (by omega)]
      exact hm m hlt
    · rw [getD_set_eq _ _ _ _ (by omega), getD_set_eq _ _ _ _ (by omega)]

theorem seedAgree_fold {α : Type} [LinearOrderedField α] (pc : PeakCalc α)
    (sqrtF : α → α) (damping sdofF : α) (fs rs : List α) (n : ℕ)
    (m : ℕ) : ∀ (k : ℕ) (s₁ s₂ : SeedState α), k + m = n →
    SeedAgree n k s₁ s₂ →
    (k = 0 → 0 < m → 0 ≤ faSqrRaw pc damping sdofF fs rs s₁ 0) →
    SeedAgree n n
      ((List.range' k m).foldl
        (vanmarckeStep pc sqrtF damping sdofF fs rs) s₁)
      ((List.range' k m).foldl
        (vanmarckeStep pc sqrtF damping sdofF fs rs) s₂) := by
  induction m with
  | zero =>
    intro k s₁ s₂ hkm h h0
    have hk : k = n := by omega
    subst hk
    exact h
  | succ mm ih =>
    intro k s₁ s₂ hkm h h0
    rw [List.range'_succ, List.foldl_cons, List.foldl_cons]
    refine ih (k + 1) _ _ (by omega) ?_ (fun hk1 => absurd hk1 (by omega))
    exact seedAgree_step pc sqrtF damping sdofF fs rs n k (by omega) s₁ s₂ h
      (fun hk0 => h0 hk0 (by omega))

/-- C10: in the Step-1 seed, when the negative branch is taken at the first
index the Python read fourier_amp[-1] returns the last element of the
freshly allocated, never-initialized array, so the result depends on the
junk contents: the first conjunct exhibits two junk arrays giving different
spectra on the same target (pi embedded as 0 makes the sdof factor -1 and
the first increment negative).  The second conjunct shows the construction
is well-defined, independent of the junk contents, whenever the squared
increment at the first target point is non-negative. -/
theorem C10_uninitialized_read_at_first_index :
    ((vanmarckeSeed constPC id 0 1 [1, 2] [1, 1] [0, 0]).fourierAmp ≠
      (vanmarckeSeed constPC id 0 1 [1, 2] [1, 1] [0, 3]).fourierAmp) ∧
    (∀ (α : Type) [LinearOrderedField α] (pc : PeakCalc α) (sqrtF : α → α)
      (piV damping : α) (fs rs j₁ j₂ : List α),
      j₁.length = fs.length → j₂.length = fs.length →
      0 ≤ faSqrRaw pc damping (sdofFactor piV damping) fs rs
        ⟨j₁, 0, 0, []⟩ 0 →
      vanmarckeSeed pc sqrtF piV damping fs rs j₁ =
        vanmarckeSeed pc sqrtF piV damping fs rs j₂) := by
  constructor
  · have h1 : (vanmarckeSeed constPC id 0 1 [1, 2] [1, 1]
        [0, 0]).fourierAmp = [0, 0] := by
      norm_num [vanmarckeSeed, vanmarckeStep, faSqrRaw, constPC,
        computeDurationRmsCall, peakFactor, sdofFactor, pyPrev,
        List.range_succ]
    have h2 : (vanmarckeSeed constPC id 0 1 [1, 2] [1, 1]
        [0, 3]).fourierAmp = [3, 7 / 4] := by
      norm_num [vanmarckeSeed, vanmarckeStep, faSqrRaw, constPC,
        computeDurationRmsCall, peakFactor, sdofFactor, pyPrev,
        List.range_succ]
    rw [h1, h2]
    norm_num
  · intro α _ pc sqrtF piV damping fs rs j₁ j₂ hl₁ hl₂ h0
    rw [vanmarckeSeed, vanmarckeSeed, List.range_eq_range']
    have hagree := seedAgree_fold pc sqrtF damping (sdofFactor piV damping)
      fs rs fs.length fs.length 0 ⟨j₁, 0, 0, []⟩ ⟨j₂, 0, 0, []⟩ (by omega)
      ⟨rfl, rfl, rfl, hl₁, hl₂, fun m hm => absurd hm (Nat.not_lt_zero m)⟩
      (fun _ _ => h0)
    obtain ⟨ht, hp, hc, hL₁, hL₂, hm⟩ := hagree
    refine seedState_ext ?_ hp ht hc
    refine List.ext_getElem (by rw [hL₁, hL₂]) ?_
    intro i hi₁ hi₂
    rw [← getD_of_lt _ _ 0 hi₁, ← getD_of_lt _ _ 0 hi₂]
    exact hm i (by omega)

/-- Witness for C10: two junk arrays of the right length produce identical
seeds when the first squared increment is non-negative. -/
theorem C10_witness :
    vanmarckeSeed constPC id 8 1 [1, 2] [1, 1] [7, 8] =
      vanmarckeSeed constPC id 8 1 [1, 2] [1, 1] [9, 10] :=
  C10_uninitialized_read_at_first_index.2 ℚ constPC id 8 1 [1, 2] [1, 1]
    [7, 8] [9, 10] rfl rfl
    (by norm_num [faSqrRaw, constPC, computeDurationRmsCall, peakFactor,
      sdofFactor])

end Pyrvt
